import Mathlib

/-!
Shallow embedding of the meshtastic-llm-bridge message pipeline.

Text is modelled as `List Char` (one element per Python character).
Machine floats (timestamps, latencies) are modelled as `Int`: only their
ordering is ever consulted by the embedded code.  Wall-clock reads are
passed in as explicit parameters.

Sources embedded: `prompt.py`, `storage.py`, `ollama_client.py`,
`meshtastic_client.py` (packet parsing and self-detection) and `main.py`
(`BridgeService._handle_message`, `BridgeService._should_respond`).
-/

/-- ASCII fragment of Python's whitespace class used by `str.strip` /
`str.split` / `str.lstrip` / `str.rstrip`.  (Python also treats some
non-ASCII Unicode code points as whitespace; the properties proved below
do not depend on which decidable class is used.) -/
def pyIsSpace (c : Char) : Bool :=
  c = ' ' || c = '\t' || c = '\n' || c = '\r' || c = '\x0b' || c = '\x0c'

/-- Python `str.lstrip()` (no arguments): drop leading whitespace. -/
def pyLstrip (l : List Char) : List Char :=
  l.dropWhile pyIsSpace

/-- Python `str.rstrip()` (no arguments): drop trailing whitespace. -/
def pyRstrip (l : List Char) : List Char :=
  ((l.reverse).dropWhile pyIsSpace).reverse

/-- Python `str.strip()` (no arguments): drop whitespace at both ends. -/
def pyStrip (l : List Char) : List Char :=
  pyRstrip (pyLstrip l)

/-- One step of the right fold realising Python `str.split()` (split on
whitespace runs).  A whitespace character opens a fresh (possibly empty)
token boundary; a non-whitespace character is prepended to the current
token. -/
def splitStep (c : Char) (acc : List (List Char)) : List (List Char) :=
  if pyIsSpace c then [] :: acc
  else
    match acc with
    | [] => [[c]]
    | w :: ws => (c :: w) :: ws

/-- Token list (with empty boundary tokens still present). -/
def splitAux (l : List Char) : List (List Char) :=
  l.foldr splitStep []

/-- Python `str.split()` with no arguments: maximal runs of
non-whitespace characters; empty tokens are discarded. -/
def splitWs (l : List Char) : List (List Char) :=
  (splitAux l).filter (fun w => !w.isEmpty)

/-- Python `sep.join(words)` for a one-character separator. -/
def joinWith (sep : Char) : List (List Char) → List Char
  | [] => []
  | [w] => w
  | w :: ws => w ++ sep :: joinWith sep ws

/-- Python `" ".join(words)`. -/
def joinWords (ws : List (List Char)) : List Char :=
  joinWith ' ' ws

/-- `prompt.normalize_reply`: `" ".join(text.strip().split())`. -/
def normalizeReply (text : List Char) : List Char :=
  joinWords (splitWs (pyStrip text))

/-- `prompt.enforce_max_length`: return `text` unchanged when it fits,
else cut at `max_chars` and right-strip the cut.  (`max_chars` is
`settings.max_reply_chars`, validated positive in `config.py`; the
Python slice `text[:max_chars]` is `List.take` for non-negative
`max_chars`.) -/
def enforceMaxLength (text : List Char) (maxChars : Int) : List Char :=
  if (text.length : Int) ≤ maxChars then text
  else pyRstrip (text.take maxChars.toNat)

/-- The list comprehension
`[text[i : i + n] for i in range(0, len(text), n)]` for `n > 0`:
`range(0, L, n)` enumerates `i = k * n` for `k < ceil(L / n)`. -/
def chunksPos (text : List Char) (n : Nat) : List (List Char) :=
  (List.range ((text.length + n - 1) / n)).map
    (fun k => (text.drop (k * n)).take n)

/-- `prompt.chunk_text`: whole text as one segment for a non-positive
chunk size, else consecutive fixed-size slices. -/
def chunkText (text : List Char) (chunkSize : Int) : List (List Char) :=
  if chunkSize ≤ 0 then [text]
  else chunksPos text chunkSize.toNat

/-- `prompt.strip_trigger_prefix`: when the text starts with a non-empty
configured trigger, drop the trigger and any following whitespace. -/
def stripTriggerPrefix (text : List Char) (p : List Char) : List Char :=
  if !p.isEmpty && p.isPrefixOf text then pyLstrip (text.drop p.length)
  else text

/-- Decimal rendering of a natural number, as Python `str` produces. -/
def natStr (n : Nat) : List Char :=
  Nat.toDigits 10 n

/-- Python `str(int)`: decimal rendering with a leading minus sign for
negative values. -/
def intStr (n : Int) : List Char :=
  if n < 0 then '-' :: natStr (-n).toNat else natStr n.toNat

/-- `storage.MessageRecord` (dataclass): one persisted message.
`timestamp` and `latency_ms` are wall-clock floats in the source; only
their ordering matters, so they are modelled as `Int`. -/
structure MessageRecord where
  direction : String
  senderId : List Char
  senderShortName : Option (List Char)
  senderLongName : Option (List Char)
  channel : Option Int
  text : List Char
  timestamp : Int
  latencyMs : Option Int
  messageId : Option (List Char)
deriving DecidableEq, Repr

/-- Row order produced by `SELECT ... ORDER BY timestamp DESC` through
the `(sender_id, timestamp)` index scanned backwards: descending
timestamp, ties broken by descending rowid (rowids are the `Nat`
component, assigned in insertion order). -/
def recentBefore (a b : Nat × MessageRecord) : Prop :=
  b.2.timestamp < a.2.timestamp ∨ (b.2.timestamp = a.2.timestamp ∧ b.1 ≤ a.1)

instance : DecidableRel recentBefore := fun a b => by
  unfold recentBefore; infer_instance

instance : IsTotal (Nat × MessageRecord) recentBefore :=
  ⟨by intro a b; unfold recentBefore; omega⟩

instance : IsTrans (Nat × MessageRecord) recentBefore :=
  ⟨by intro a b c hab hbc; unfold recentBefore at *; omega⟩

/-- `SQLiteStorage.get_recent_messages`: filter the table by sender,
order by `timestamp DESC` (rowid-descending on ties, matching the
backward index scan), apply `LIMIT`, then reverse into oldest-first
order.  The table is the list of records in insertion order; rowids are
the insertion positions. -/
def getRecent (db : List MessageRecord) (sender : List Char) (limit : Nat) :
    List MessageRecord :=
  let rows := (db.enum).filter (fun p => p.2.senderId = sender)
  (((List.insertionSort recentBefore rows).take limit).reverse).map (fun p => p.2)

/-- `meshtastic_client.InboundMessage` (dataclass).  The `raw` packet
dict is carried only for debug logging in the source and is not
consumed by the pipeline, so it is omitted here. -/
structure InboundMessage where
  text : List Char
  senderId : List Char
  senderShortName : Option (List Char)
  senderLongName : Option (List Char)
  channel : Option Int
  isDm : Bool
  rxTime : Int
  fromNum : Option Int
  toNum : Option Int
  toId : Option (List Char)
  messageId : Option (List Char)
deriving DecidableEq, Repr

/-- `BROADCAST_NUMS = {0, 0xFFFFFFFF}`. -/
def broadcastNums : List Int := [0, 4294967295]

/-- `BROADCAST_IDS = {"^all", "all", "broadcast"}`. -/
def broadcastIds : List (List Char) :=
  ["^all".toList, "all".toList, "broadcast".toList]

/-- Python `str.lower()` (ASCII). -/
def pyLower (l : List Char) : List Char := l.map Char.toLower

/-- `MeshtasticClient._is_dm`: a destination is a DM when the string
destination id is truthy and not a broadcast sentinel, or the numeric
destination is present and not a broadcast number. -/
def isDmDest (toNum : Option Int) (toId : Option (List Char)) : Bool :=
  (match toId with
   | some s => !s.isEmpty && !(broadcastIds.contains (pyLower s))
   | none => false)
  ||
  (match toNum with
   | some n => !(broadcastNums.contains n)
   | none => false)

/-- The `decoded` sub-dict of a raw packet (only `text` is consumed). -/
structure Decoded where
  text : Option (List Char)
deriving DecidableEq, Repr

/-- A raw transport packet dict, restricted to the keys
`_parse_packet` reads.  `Option` models an absent key or a `None`
value (indistinguishable under `dict.get`). -/
structure Packet where
  decoded : Option Decoded
  fromNum : Option Int
  fromId : Option (List Char)
  toNum : Option Int
  toId : Option (List Char)
  channel : Option Int
  channelIndex : Option Int
  rxTime : Option Int
  pid : Option Int
deriving DecidableEq, Repr

/-- `decoded = packet.get("decoded") or {}; text = decoded.get("text")`. -/
def decodedTextOf (p : Packet) : Option (List Char) :=
  match p.decoded with
  | some d => d.text
  | none => none

/-- The sender-id expression of `_parse_packet`:
`from_id or (str(from_num) if from_num is not None else "unknown")`.
Python `or` falls through on a falsy (absent, `None` or empty) string
id. -/
def senderIdOf (p : Packet) : List Char :=
  let senderFallback := match p.fromNum with
    | some n => intStr n
    | none => "unknown".toList
  match p.fromId with
  | some s => if s.isEmpty then senderFallback else s
  | none => senderFallback

/-- `MeshtasticClient._parse_packet`.  `lookup` stands for
`_lookup_sender_names` (a best-effort read of the live node directory);
`now` stands for the `time.time()` fallback used when `rxTime` is
falsy (absent, `None` or `0`). -/
def parsePacket
    (lookup : Option Int → Option (List Char) → Option (List Char) × Option (List Char))
    (now : Int) (p : Packet) : Option InboundMessage :=
  match decodedTextOf p with
  | none => none
  | some t =>
    if t.isEmpty then none
    else
      let channel := match p.channel with
        | some c => some c
        | none => p.channelIndex
      let names := lookup p.fromNum p.fromId
      some
        { text := t
          senderId := senderIdOf p
          senderShortName := names.1
          senderLongName := names.2
          channel := channel
          isDm := isDmDest p.toNum p.toId
          rxTime := match p.rxTime with
            | some r => if r = 0 then now else r
            | none => now
          fromNum := p.fromNum
          toNum := p.toNum
          toId := p.toId
          messageId := p.pid.map intStr }

/-- `MeshtasticClient.is_from_self`: the numeric sender id matches a
recorded self number, or the string sender id matches a recorded self
id. -/
def isFromSelf (selfNums : List Int) (selfIds : List (List Char))
    (m : InboundMessage) : Bool :=
  (match m.fromNum with
   | some n => selfNums.contains n
   | none => false)
  || selfIds.contains m.senderId

/-- The string form of one failed inference attempt's exception
(`httpx.RequestError`, `httpx.HTTPStatusError` or `ValueError`). -/
abbrev BackendError := List Char

/-- Retry loop body of `OllamaClient.generate`: walk the per-attempt
backend outcomes (one entry per loop iteration, `max_retries` in all),
return the first success, otherwise remember the attempt's error as
`last_error`. -/
def generateGo : List (Except BackendError (List Char)) → Option BackendError →
    Except (Option BackendError) (List Char)
  | [], lastErr => .error lastErr
  | a :: rest, _ =>
    match a with
    | .ok r => .ok r
    | .error e => generateGo rest (some e)

/-- `OllamaClient.generate`: the `attempts` list holds the backend's
outcome for each of the `max_retries` attempts the loop would make; the
generated text of a success is `data.get("response", "")`.  Exhausting
the attempts raises `RuntimeError("Ollama request failed")` chained
from `last_error` — modelled as `.error` carrying the last underlying
error (`none` when no attempt ran).  Per-attempt wall-clock latency and
the backoff sleeps are not modelled. -/
def generate (attempts : List (Except BackendError (List Char))) :
    Except (Option BackendError) (List Char) :=
  generateGo attempts none

/-- `prompt.PromptParts` (dataclass). -/
structure PromptParts where
  sys : List Char
  user : List Char
deriving DecidableEq, Repr

/-- `prompt.SYSTEM_PROMPT`. -/
def systemPromptText : List Char :=
  "Reply briefly in 10 words or less.".toList

/-- Python `opt or default` for an optional string: the string itself
when truthy (present and non-empty), else the default. -/
def pyOrStr (o : Option (List Char)) (d : List Char) : List Char :=
  match o with
  | some s => if s.isEmpty then d else s
  | none => d

/-- `prompt.build_prompt`. -/
def buildPrompt (msg : InboundMessage) (history : List MessageRecord)
    (maxReplyChars : Int) : PromptParts :=
  let senderName := pyOrStr msg.senderShortName (pyOrStr msg.senderLongName "Unknown".toList)
  let senderLong := pyOrStr msg.senderLongName []
  let channelLabel :=
    if msg.isDm then "DM".toList
    else match msg.channel with
      | some c => intStr c
      | none => "unknown".toList
  let line1 := "Sender: ".toList ++ senderName
  let lineLong := "Sender Long Name: ".toList ++ senderLong
  let line2 := "Sender ID: ".toList ++ msg.senderId
  let line3 := "Channel: ".toList ++ channelLabel
  let headerLines :=
    if !senderLong.isEmpty && senderLong ≠ senderName then [line1, lineLong, line2, line3]
    else [line1, line2, line3]
  let historyLines := history.map (fun item =>
    (if item.direction = "in" then "User: ".toList else "Assistant: ".toList) ++ item.text)
  let historyBlock :=
    if historyLines.isEmpty then "(none)".toList else joinWith '\n' historyLines
  let userLines := headerLines ++
    ["Message:".toList, msg.text, [], "Conversation history:".toList, historyBlock, [],
     "Reply in <= ".toList ++ intStr maxReplyChars ++ " characters.".toList]
  { sys := systemPromptText, user := joinWith '\n' userLines }

/-- The fields of `config.Settings` the message pipeline consumes.
`config.py` validates `max_reply_chars > 0` and `memory_turns > 0` at
startup. -/
structure Settings where
  triggerPrefix : List Char
  respondToDmsOnly : Bool
  allowedChannels : List Int
  allowedSenders : List (List Char)
  maxReplyChars : Int
  memoryTurns : Int
deriving DecidableEq, Repr

/-- Python `message.channel not in allowed` negated: an `Optional[int]`
channel is a member only when it is an actual `int` in the list
(`None in list_of_ints` is `False`). -/
def optChannelMem (c : Option Int) (l : List Int) : Bool :=
  match c with
  | some x => l.contains x
  | none => false

/-- The `candidates` set of `_should_respond`: the string sender id,
plus the numeric sender id rendered with `str` when present. -/
def senderCandidates (m : InboundMessage) : List (List Char) :=
  m.senderId :: (match m.fromNum with
    | some n => [intStr n]
    | none => [])

/-- The final check of `_should_respond`:
`if prefix and not message.text.startswith(prefix): return False`.
Passes unless a non-empty trigger is configured and the raw text does
not start with it. -/
def triggerRulePasses (p text : List Char) : Bool :=
  !(!p.isEmpty && !(p.isPrefixOf text))

/-- `BridgeService._should_respond`: the four admission checks in
source order, each an early `return False`. -/
def shouldRespond (s : Settings) (m : InboundMessage) : Bool :=
  if s.respondToDmsOnly && !m.isDm then false
  else if (!s.allowedChannels.isEmpty && !m.isDm)
      && !(optChannelMem m.channel s.allowedChannels) then false
  else if !s.allowedSenders.isEmpty
      && !((senderCandidates m).any (fun c => s.allowedSenders.contains c)) then false
  else if !(triggerRulePasses s.triggerPrefix m.text) then false
  else true

/-- A `sendText` destination: a string node id or a numeric node id. -/
inductive Dest where
  | str (s : List Char)
  | num (n : Int)
deriving DecidableEq, Repr

/-- Observable steps of `BridgeService._handle_message`, in execution
order: the history query, each storage append, the structured log
events, the admission evaluation, the inference call, and each
`send_text` dispatch (with its `message_out` log folded in). -/
inductive TraceEvent where
  | ignoreSelf
  | fetchHistory (sender : List Char) (limit : Nat)
  | persist (r : MessageRecord)
  | logMessageIn
  | admission (accepted : Bool)
  | emptyTrigger
  | llmCall (p : PromptParts)
  | handlerError
  | emptyReply
  | llmResponseLogged
  | send (text : List Char) (dest : Option Dest) (channel : Option Int)
      (idx : Nat) (count : Nat)
deriving DecidableEq, Repr

/-- Destination derivation of step 8 in `_handle_message`: for a DM,
prefer the string sender id when it starts with `"!"`, else the numeric
sender id, else the string sender id; for a broadcast, no destination
id and `message.channel or 0` as the channel index. -/
def destOf (m : InboundMessage) : Option Dest × Option Int :=
  if m.isDm then
    (some (if ['!'].isPrefixOf m.senderId then Dest.str m.senderId
           else match m.fromNum with
             | some n => Dest.num n
             | none => Dest.str m.senderId),
     none)
  else
    (none, some (m.channel.getD 0))

/-- The inbound `MessageRecord` built in `_handle_message`: the stored
text is the event text with any configured trigger stripped. -/
def inboundRecordOf (s : Settings) (m : InboundMessage) : MessageRecord :=
  { direction := "in"
    senderId := m.senderId
    senderShortName := m.senderShortName
    senderLongName := m.senderLongName
    channel := m.channel
    text := stripTriggerPrefix m.text s.triggerPrefix
    timestamp := m.rxTime
    latencyMs := none
    messageId := m.messageId }

/-- The outbound `MessageRecord` built in `_handle_message`: the final
un-chunked reply, stamped with `now_ts()` and the inference latency. -/
def outboundRecordOf (m : InboundMessage) (reply : List Char) (now lat : Int) :
    MessageRecord :=
  { direction := "out"
    senderId := m.senderId
    senderShortName := m.senderShortName
    senderLongName := m.senderLongName
    channel := m.channel
    text := reply
    timestamp := now
    latencyMs := some lat
    messageId := none }

/-- The per-chunk send loop: `enumerate(chunks, start=1)`, one
`send_text` (plus `message_out` log) per chunk. -/
def sendEventsOf (chunks : List (List Char)) (dest : Option Dest)
    (channel : Option Int) : List TraceEvent :=
  (chunks.enum).map (fun q => TraceEvent.send q.2 dest channel (q.1 + 1) chunks.length)

/-- `BridgeService._handle_message` as a pure step function: given the
settings, the recorded self identifiers, the backend's per-attempt
outcomes, the wall clock (`now`) and measured latency (`lat`), the
storage table, and the inbound event, return the updated table and the
trace of observable steps.  The top-level `except` of the source turns
an inference failure into a single `message_handler_error` log that
abandons the event, keeping everything already persisted. -/
def handleMessage (s : Settings) (selfNums : List Int) (selfIds : List (List Char))
    (attempts : List (Except BackendError (List Char))) (now lat : Int)
    (db : List MessageRecord) (msg : InboundMessage) :
    List MessageRecord × List TraceEvent :=
  if isFromSelf selfNums selfIds msg then (db, [.ignoreSelf])
  else
    let limit := (s.memoryTurns * 2).toNat
    let history := getRecent db msg.senderId limit
    let inbound := inboundRecordOf s msg
    let db1 := db ++ [inbound]
    let pre1 := [TraceEvent.fetchHistory msg.senderId limit,
      TraceEvent.persist inbound, TraceEvent.logMessageIn]
    let accepted := shouldRespond s msg
    let pre2 := pre1 ++ [TraceEvent.admission accepted]
    if !accepted then (db1, pre2)
    else
      let stripped := stripTriggerPrefix msg.text s.triggerPrefix
      if stripped.isEmpty then (db1, pre2 ++ [.emptyTrigger])
      else
        let req := buildPrompt { msg with text := stripped } history s.maxReplyChars
        let pre3 := pre2 ++ [TraceEvent.llmCall req]
        match generate attempts with
        | .error _ => (db1, pre3 ++ [.handlerError])
        | .ok resp =>
          let reply := enforceMaxLength (normalizeReply resp) s.maxReplyChars
          if reply.isEmpty then (db1, pre3 ++ [.emptyReply])
          else
            let d := destOf msg
            let chunks := chunkText reply s.maxReplyChars
            let outbound := outboundRecordOf msg reply now lat
            (db1 ++ [outbound],
             pre3 ++ [TraceEvent.llmResponseLogged]
               ++ sendEventsOf chunks d.1 d.2 ++ [TraceEvent.persist outbound])

/-- Recognise a `send` trace event. -/
def isSendEvent : TraceEvent → Bool
  | .send .. => true
  | _ => false

/-- Recognise an inference call. -/
def isLlmCallEvent : TraceEvent → Bool
  | .llmCall _ => true
  | _ => false

/-- Recognise a `message_handler_error` log. -/
def isHandlerErrorEvent : TraceEvent → Bool
  | .handlerError => true
  | _ => false

/-- Recognise the history fetch. -/
def isFetchEvent : TraceEvent → Bool
  | .fetchHistory .. => true
  | _ => false

/-- Recognise a storage append. -/
def isPersistEvent : TraceEvent → Bool
  | .persist _ => true
  | _ => false

/-- Recognise the admission evaluation. -/
def isAdmissionEvent : TraceEvent → Bool
  | .admission _ => true
  | _ => false

/-- `range(0, L, n)` is empty on empty text. -/
theorem chunksPos_nil (n : Nat) : chunksPos [] n = [] := by
  cases n with
  | zero => simp [chunksPos]
  | succ m =>
    simp only [chunksPos, List.length_nil]
    rw [Nat.div_eq_of_lt (by omega)]
    simp

/-- Ceiling-division step: one chunk is peeled off the front. -/
theorem ceilDiv_step (L n : Nat) (hn : 0 < n) (hL : 0 < L) :
    (L + n - 1) / n = ((L - n) + n - 1) / n + 1 := by
  have h1 : L + n - 1 = (L - 1) + n := by omega
  rw [h1, Nat.add_div_right _ hn]
  rcases le_or_lt L n with h | h
  · have h2 : L - n = 0 := by omega
    rw [h2, Nat.div_eq_of_lt (by omega : L - 1 < n),
      Nat.div_eq_of_lt (by omega : 0 + n - 1 < n)]
  · have h2 : (L - n) + n - 1 = (L - n - 1) + n := by omega
    rw [h2, Nat.add_div_right _ hn]
    have h3 : L - 1 = (L - n - 1) + n := by omega
    rw [h3, Nat.add_div_right _ hn]

/-- Unfolding `chunksPos` on non-empty text. -/
theorem chunksPos_cons (n : Nat) (hn : 0 < n) (l : List Char) (hl : l ≠ []) :
    chunksPos l n = l.take n :: chunksPos (l.drop n) n := by
  unfold chunksPos
  have hL : 0 < l.length := List.length_pos.mpr hl
  rw [List.length_drop, ceilDiv_step l.length n hn hL, List.range_succ_eq_map,
    List.map_cons, List.map_map]
  congr 1
  · simp
  · apply List.map_congr_left
    intro k _
    simp only [Function.comp_apply, List.drop_drop]
    congr 2
    rw [Nat.succ_mul]
    exact Nat.add_comm _ _

/-- Concatenating the chunks restores the text. -/
theorem chunksPos_flatten (n : Nat) (hn : 0 < n) :
    ∀ l : List Char, (chunksPos l n).flatten = l := by
  have key : ∀ (k : Nat) (l : List Char), l.length ≤ k → (chunksPos l n).flatten = l := by
    intro k
    induction k with
    | zero =>
      intro l h
      have : l = [] := List.eq_nil_of_length_eq_zero (by omega)
      subst this
      simp [chunksPos_nil]
    | succ k ih =>
      intro l h
      rcases List.eq_nil_or_concat l with rfl | _
      · simp [chunksPos_nil]
      · have hl : l ≠ [] := by rintro rfl; simp_all
        rw [chunksPos_cons n hn l hl, List.flatten_cons,
          ih (l.drop n) (by rw [List.length_drop]; omega)]
        exact List.take_append_drop n l
  exact fun l => key l.length l le_rfl

/-- Every chunk except possibly the last has length exactly `n`. -/
theorem chunksPos_dropLast_length (n : Nat) (hn : 0 < n) :
    ∀ l : List Char, ∀ c ∈ (chunksPos l n).dropLast, c.length = n := by
  have key : ∀ (k : Nat) (l : List Char), l.length ≤ k →
      ∀ c ∈ (chunksPos l n).dropLast, c.length = n := by
    intro k
    induction k with
    | zero =>
      intro l h c hc
      have : l = [] := List.eq_nil_of_length_eq_zero (by omega)
      subst this
      simp [chunksPos_nil] at hc
    | succ k ih =>
      intro l h c hc
      by_cases hl : l = []
      · subst hl; simp [chunksPos_nil] at hc
      rw [chunksPos_cons n hn l hl] at hc
      cases hrest : chunksPos (l.drop n) n with
      | nil => rw [hrest] at hc; simp at hc
      | cons r rs =>
        rw [hrest, List.dropLast_cons₂, List.mem_cons] at hc
        rcases hc with rfl | hc
        · have hdrop : l.drop n ≠ [] := by
            intro hd
            rw [hd, chunksPos_nil] at hrest
            exact List.noConfusion hrest
          have : n < l.length := by
            by_contra hcon
            exact hdrop (List.drop_eq_nil_iff.mpr (by omega))
          rw [List.length_take]
          omega
        · exact ih (l.drop n) (by rw [List.length_drop]; omega) c (hrest ▸ hc)
  exact fun l => key l.length l le_rfl

/-- C8: for chunk size `n > 0`, `chunk_text` concatenates back to the
input and every segment except possibly the last has length exactly
`n`; for `n <= 0` it returns the whole text as a single segment. -/
theorem chunkText_spec (l : List Char) (n : Int) :
    (0 < n → (chunkText l n).flatten = l ∧
      ∀ c ∈ (chunkText l n).dropLast, c.length = n.toNat)
    ∧ (n ≤ 0 → chunkText l n = [l]) := by
  constructor
  · intro hn
    have hle : ¬ n ≤ 0 := by omega
    have hpos : 0 < n.toNat := by omega
    rw [chunkText, if_neg hle]
    exact ⟨chunksPos_flatten n.toNat hpos l, chunksPos_dropLast_length n.toNat hpos l⟩
  · intro hn
    rw [chunkText, if_pos hn]

/-- C8 witness: the chunk laws evaluated at `"abcde"` with chunk size 2
and at chunk size 0. -/
theorem chunkText_spec_witness :
    (chunkText "abcde".toList 2).flatten = "abcde".toList ∧
    (∀ c ∈ (chunkText "abcde".toList 2).dropLast, c.length = (2 : Int).toNat) ∧
    chunkText "abcde".toList 0 = ["abcde".toList] :=
  ⟨((chunkText_spec "abcde".toList 2).1 (by decide)).1,
   ((chunkText_spec "abcde".toList 2).1 (by decide)).2,
   (chunkText_spec "abcde".toList 0).2 (by decide)⟩

/-- `_should_respond` written to the spec's letter: four checks a–d,
evaluated in the stated order with short-circuit on first failure, the
sender check as an explicit two-way disjunction. -/
def shouldRespondSpec (s : Settings) (m : InboundMessage) : Bool :=
  if s.respondToDmsOnly && !m.isDm then false
  else if !s.allowedChannels.isEmpty && !m.isDm
      && !(match m.channel with
           | some c => s.allowedChannels.contains c
           | none => false) then false
  else if !s.allowedSenders.isEmpty
      && !(s.allowedSenders.contains m.senderId
           || (match m.fromNum with
               | some n => s.allowedSenders.contains (intStr n)
               | none => false)) then false
  else if !s.triggerPrefix.isEmpty && !(s.triggerPrefix.isPrefixOf m.text) then false
  else true

/-- C5: the admission decision returns true iff all four checks pass,
in order, short-circuiting on the first failure: (a) DM-only, (b)
channel allow-list for non-DM events, (c) sender allow-list against the
string sender id or the stringified numeric id, (d) non-empty trigger
on the raw text. -/
theorem shouldRespond_matches_spec (s : Settings) (m : InboundMessage) :
    shouldRespond s m = shouldRespondSpec s m := by
  unfold shouldRespond shouldRespondSpec triggerRulePasses optChannelMem senderCandidates
  cases hf : m.fromNum <;> simp

/-- C7 counterexample: with trigger `"!"` and text `"!hi"` (which
starts with the trigger), the stripped text `"hi"` no longer starts
with the trigger, so stripping and then re-checking the admission
trigger-prefix rule on the stripped text fails. -/
theorem strip_then_recheck_fails :
    ("!".toList).isPrefixOf "!hi".toList = true ∧
    stripTriggerPrefix "!hi".toList "!".toList = "hi".toList ∧
    ("!".toList).isPrefixOf (stripTriggerPrefix "!hi".toList "!".toList) = false ∧
    triggerRulePasses "!".toList (stripTriggerPrefix "!hi".toList "!".toList) = false := by
  decide

/-- C7 (amended): admission checks the raw text, and stripping is a
separate storage/prompt transformation; for every trigger `p` and text
`t` starting with `p` the admission trigger-prefix rule passes on the
raw `t`; for `t` not starting with a non-empty `p` the rule alone
rejects; stripping removes exactly the matched trigger plus following
whitespace; and with no other filters configured the rule alone decides
admission. -/
theorem trigger_rule_spec (p t : List Char) :
    (p.isPrefixOf t = true → triggerRulePasses p t = true) ∧
    (p ≠ [] → p.isPrefixOf t = false → triggerRulePasses p t = false) ∧
    (p ≠ [] → p.isPrefixOf t = true →
      stripTriggerPrefix t p = pyLstrip (t.drop p.length)) ∧
    (∀ m : InboundMessage, m.text = t →
      shouldRespond ⟨p, false, [], [], 200, 6⟩ m = triggerRulePasses p t) := by
  refine ⟨?_, ?_, ?_, ?_⟩
  · intro h
    simp [triggerRulePasses, h]
  · intro hp h
    have hpe : p.isEmpty = false := by cases p <;> simp_all
    simp [triggerRulePasses, hpe, h]
  · intro hp h
    have hpe : p.isEmpty = false := by cases p <;> simp_all
    simp [stripTriggerPrefix, hpe, h]
  · intro m hm
    subst hm
    cases h : triggerRulePasses p m.text <;>
      simp [shouldRespond, h]

/-- C7 witness: the amended rule evaluated at the default trigger
`"!ai "` with a matching text, a non-matching text, and a concrete
event. -/
theorem trigger_rule_spec_witness :
    triggerRulePasses "!ai ".toList "!ai hi".toList = true ∧
    triggerRulePasses "!ai ".toList "hello".toList = false ∧
    stripTriggerPrefix "!ai hi".toList "!ai ".toList =
      pyLstrip ("!ai hi".toList.drop ("!ai ".toList).length) ∧
    shouldRespond ⟨"!ai ".toList, false, [], [], 200, 6⟩
      { text := "!ai hi".toList, senderId := "!ab".toList, senderShortName := none,
        senderLongName := none, channel := none, isDm := true, rxTime := 3,
        fromNum := some 7, toNum := some 9, toId := none, messageId := none } =
      triggerRulePasses "!ai ".toList "!ai hi".toList :=
  ⟨(trigger_rule_spec "!ai ".toList "!ai hi".toList).1 (by decide),
   (trigger_rule_spec "!ai ".toList "hello".toList).2.1 (by decide) (by decide),
   (trigger_rule_spec "!ai ".toList "!ai hi".toList).2.2.1 (by decide) (by decide),
   (trigger_rule_spec "!ai ".toList "!ai hi".toList).2.2.2 _ rfl⟩

/-- C2 counterexample data: first appended record, timestamp 10. -/
def recEarlier : MessageRecord :=
  { direction := "in", senderId := ['a'], senderShortName := none,
    senderLongName := none, channel := none, text := ['x'],
    timestamp := 10, latencyMs := none, messageId := none }

/-- C2 counterexample data: second appended record, timestamp 5 (the
wall clock moved backwards between the two appends). -/
def recLater : MessageRecord :=
  { recEarlier with text := ['y'], timestamp := 5 }

/-- C2 counterexample: after appending `recEarlier` (timestamp 10) and
then `recLater` (timestamp 5), `get_recent_messages` returns them in
timestamp order `[recLater, recEarlier]`, not in insertion order
`[recEarlier, recLater]`: the `ORDER BY timestamp` clause, not
insertion order, is the ordering key. -/
theorem getRecent_not_insertion_order :
    getRecent [recEarlier, recLater] ['a'] 10 = [recLater, recEarlier] ∧
    recLater ≠ recEarlier := by
  decide

/-- C2 (amended): `recent(sender, limit)` returns at most `limit`
records, each a previously appended record for that sender, ordered by
non-decreasing `timestamp` (oldest timestamp first); when timestamps
decrease across appends this can differ from insertion order. -/
theorem getRecent_spec (db : List MessageRecord) (sender : List Char) (limit : Nat) :
    (getRecent db sender limit).length ≤ limit ∧
    List.Pairwise (fun a b => a.timestamp ≤ b.timestamp) (getRecent db sender limit) ∧
    ∀ r ∈ getRecent db sender limit, r ∈ db ∧ r.senderId = sender := by
  unfold getRecent
  set rows := (db.enum).filter (fun p => p.2.senderId = sender) with hrows
  refine ⟨?_, ?_, ?_⟩
  · rw [List.length_map, List.length_reverse]
    exact List.length_take_le _ _
  · rw [List.pairwise_map, List.pairwise_reverse]
    have hsorted : List.Pairwise recentBefore
        ((List.insertionSort recentBefore rows).take limit) :=
      List.Pairwise.sublist (List.take_sublist _ _) (List.sorted_insertionSort recentBefore rows)
    exact hsorted.imp (by intro a b hab; unfold recentBefore at hab; omega)
  · intro r hr
    rcases List.mem_map.mp hr with ⟨q, hq, rfl⟩
    rw [List.mem_reverse] at hq
    have hq2 : q ∈ List.insertionSort recentBefore rows :=
      (List.take_sublist _ _).mem hq
    have hq3 : q ∈ rows := (List.perm_insertionSort recentBefore rows).mem_iff.mp hq2
    rw [hrows, List.mem_filter] at hq3
    exact ⟨List.snd_mem_of_mem_enum hq3.1, by simpa using hq3.2⟩

/-- `Nat.toDigitsCore` strictly lengthens its accumulator whenever it
has fuel. -/
theorem toDigitsCore_length_lt (b : Nat) :
    ∀ (fuel n : Nat) (ds : List Char), 0 < fuel →
      ds.length < (Nat.toDigitsCore b fuel n ds).length := by
  intro fuel
  induction fuel with
  | zero => intro n ds h; omega
  | succ f ih =>
    intro n ds _
    rw [Nat.toDigitsCore]
    by_cases h : n / b = 0
    · simp [h]
    · rw [if_neg h]
      by_cases hf0 : f = 0
      · subst hf0
        rw [Nat.toDigitsCore]
        simp
      · have hlt := ih (n / b) ((n % b).digitChar :: ds) (by omega)
        simp only [List.length_cons] at hlt
        omega

/-- The decimal rendering of a natural number is never empty. -/
theorem natStr_ne_nil (n : Nat) : natStr n ≠ [] := by
  intro h
  have := toDigitsCore_length_lt 10 (n + 1) n [] (by omega)
  unfold natStr Nat.toDigits at h
  rw [h] at this
  simp at this

/-- Python `str(int)` is never empty. -/
theorem intStr_ne_nil (n : Int) : intStr n ≠ [] := by
  unfold intStr
  by_cases h : n < 0
  · simp [h]
  · simp only [h, if_false]
    exact natStr_ne_nil _

/-- The sender id computed by `_parse_packet` is never empty: every
branch of the `or` chain yields a non-empty string. -/
theorem senderIdOf_ne_nil (p : Packet) : senderIdOf p ≠ [] := by
  unfold senderIdOf
  cases hid : p.fromId with
  | some s =>
    by_cases hs : s.isEmpty = true
    · simp only [hs, if_true]
      cases hn : p.fromNum with
      | some n => exact intStr_ne_nil n
      | none => decide
    · simp only [hs, if_false]
      cases s with
      | nil => simp at hs
      | cons a as => simp
  | none =>
    cases hn : p.fromNum with
    | some n => exact intStr_ne_nil n
    | none => decide

/-- The sender-id rule as the claim words it: the packet's string
`fromId` when present, otherwise the decimal rendering of the numeric
`from` field when present, otherwise the literal `"unknown"`. -/
def senderIdClaim (p : Packet) : List Char :=
  match p.fromId with
  | some s => s
  | none =>
    match p.fromNum with
    | some n => intStr n
    | none => "unknown".toList

/-- A packet whose `fromId` key holds an empty string while `from`
holds 7, with decoded text `"hi"`. -/
def pktEmptyFromId : Packet :=
  { decoded := some { text := some "hi".toList }, fromNum := some 7,
    fromId := some [], toNum := some 9, toId := none, channel := none,
    channelIndex := none, rxTime := some 3, pid := none }

/-- C10 counterexample: on a packet carrying a present-but-empty string
`fromId` and numeric `from = 7`, the parser produces sender id `"7"`
(Python `or` skips the falsy empty string), not the present `fromId`
as the claim's rule dictates. -/
theorem parsePacket_fromId_empty_fallback :
    (parsePacket (fun _ _ => (none, none)) 0 pktEmptyFromId).map
        (fun m => m.senderId) = some "7".toList ∧
    senderIdClaim pktEmptyFromId = [] ∧
    "7".toList ≠ ([] : List Char) := by
  decide

/-- C10 (amended): a raw packet yields no `InboundMessage` exactly when
its decoded text is absent or empty; otherwise the message's sender id
is the packet's string `fromId` when present and non-empty, else the
decimal rendering of the numeric `from` field when present, else the
literal `"unknown"` — and is in every case non-empty. -/
theorem parsePacket_spec
    (lookup : Option Int → Option (List Char) → Option (List Char) × Option (List Char))
    (now : Int) (p : Packet) :
    (parsePacket lookup now p = none ↔
      (decodedTextOf p = none ∨ decodedTextOf p = some [])) ∧
    (∀ m, parsePacket lookup now p = some m →
      m.senderId = senderIdOf p ∧ m.senderId ≠ []) := by
  constructor
  · unfold parsePacket
    cases h : decodedTextOf p with
    | none => simp
    | some t =>
      cases t with
      | nil => simp
      | cons c cs => simp
  · intro m hm
    unfold parsePacket at hm
    split at hm
    · exact absurd hm (by simp)
    · split at hm
      · exact absurd hm (by simp)
      · simp only [Option.some.injEq] at hm
        subst hm
        exact ⟨rfl, senderIdOf_ne_nil p⟩

/-- C10 witness: the amended statement evaluated on a full packet, a
text-less packet, and an empty-text packet. -/
theorem parsePacket_spec_witness :
    (parsePacket (fun _ _ => (none, none)) 0 pktEmptyFromId).map
        (fun m => m.senderId) = some (senderIdOf pktEmptyFromId) ∧
    parsePacket (fun _ _ => (none, none)) 0
      { pktEmptyFromId with decoded := none } = none ∧
    parsePacket (fun _ _ => (none, none)) 0
      { pktEmptyFromId with decoded := some { text := some [] } } = none := by
  refine ⟨?_, ?_, ?_⟩
  · cases hp : parsePacket (fun _ _ => (none, none)) 0 pktEmptyFromId with
    | none =>
      exact absurd hp (by decide)
    | some m =>
      have := ((parsePacket_spec (fun _ _ => (none, none)) 0 pktEmptyFromId).2 m hp).1
      simp [this]
  · exact ((parsePacket_spec (fun _ _ => (none, none)) 0 _).1).mpr (by decide)
  · exact ((parsePacket_spec (fun _ _ => (none, none)) 0 _).1).mpr (by decide)

/-- Every character placed inside a `split()` token is non-whitespace. -/
theorem splitAux_chars (l : List Char) :
    ∀ w ∈ splitAux l, ∀ c ∈ w, pyIsSpace c = false := by
  induction l with
  | nil => intro w hw; simp [splitAux] at hw
  | cons c cs ih =>
    intro w hw d hd
    have hw' : w ∈ splitStep c (splitAux cs) := by
      simpa [splitAux] using hw
    unfold splitStep at hw'
    by_cases hc : pyIsSpace c = true
    · rw [if_pos hc] at hw'
      rcases List.mem_cons.mp hw' with rfl | hmem
      · simp at hd
      · exact ih w hmem d hd
    · rw [if_neg hc] at hw'
      cases hsplit : splitAux cs with
      | nil =>
        rw [hsplit] at hw'
        have : w = [c] := List.mem_singleton.mp hw'
        subst this
        have : d = c := List.mem_singleton.mp hd
        subst this
        simpa using hc
      | cons w0 ws =>
        rw [hsplit] at hw'
        rcases List.mem_cons.mp hw' with rfl | hmem
        · rcases List.mem_cons.mp hd with rfl | hd'
          · simpa using hc
          · exact ih w0 (by rw [hsplit]; exact List.mem_cons_self _ _) d hd'
        · exact ih w (by rw [hsplit]; exact List.mem_cons_of_mem _ hmem) d hd

/-- Every `split()` word is non-empty and whitespace-free. -/
theorem splitWs_words (l : List Char) :
    ∀ w ∈ splitWs l, w ≠ [] ∧ ∀ c ∈ w, pyIsSpace c = false := by
  intro w hw
  rw [splitWs, List.mem_filter] at hw
  refine ⟨by simpa using hw.2, splitAux_chars l w hw.1⟩

/-- Folding the splitter over a whitespace-free run extends the first
pending token. -/
theorem foldr_splitStep_run (w : List Char) :
    ∀ (v : List Char) (X : List (List Char)),
      (∀ c ∈ w, pyIsSpace c = false) →
      w.foldr splitStep (v :: X) = (w ++ v) :: X := by
  induction w with
  | nil => intro v X _; rfl
  | cons c cs ih =>
    intro v X h
    have hc : pyIsSpace c = false := h c (List.mem_cons_self _ _)
    rw [List.foldr_cons, ih v X (fun d hd => h d (List.mem_cons_of_mem _ hd))]
    unfold splitStep
    rw [if_neg (by simp [hc])]
    rfl

/-- `split()` of a single non-empty whitespace-free word is that word. -/
theorem splitAux_word (w : List Char) (hw : ∀ c ∈ w, pyIsSpace c = false)
    (hne : w ≠ []) : splitAux w = [w] := by
  cases w with
  | nil => exact absurd rfl hne
  | cons c cs =>
    unfold splitAux
    rw [show (c :: cs).foldr splitStep [] = splitStep c (cs.foldr splitStep []) from rfl]
    cases cs with
    | nil =>
      unfold splitStep
      rw [if_neg (by simp [hw c (List.mem_cons_self _ _)])]
      rfl
    | cons d ds =>
      have : (d :: ds).foldr splitStep [] = splitAux (d :: ds) := rfl
      rw [this, splitAux_word (d :: ds)
        (fun e he => hw e (List.mem_cons_of_mem _ he)) (by simp)]
      unfold splitStep
      rw [if_neg (by simp [hw c (List.mem_cons_self _ _)])]

/-- Splitting a whitespace-free run followed by a space peels off the
run as one token. -/
theorem splitAux_run_space (w t : List Char)
    (hw : ∀ c ∈ w, pyIsSpace c = false) :
    splitAux (w ++ ' ' :: t) = w :: splitAux t := by
  unfold splitAux
  rw [List.foldr_append]
  have hsp : (' ' :: t).foldr splitStep [] = [] :: t.foldr splitStep [] := by
    rw [List.foldr_cons]
    unfold splitStep
    rw [if_pos (by decide)]
  rw [hsp, foldr_splitStep_run w [] (t.foldr splitStep []) hw, List.append_nil]

/-- Splitting the space-joined image of non-empty whitespace-free words
recovers exactly those words. -/
theorem splitWs_joinWords :
    ∀ ws : List (List Char),
      (∀ w ∈ ws, w ≠ [] ∧ ∀ c ∈ w, pyIsSpace c = false) →
      splitWs (joinWords ws) = ws := by
  intro ws
  induction ws with
  | nil => intro _; rfl
  | cons w rest ih =>
    intro h
    have hw := h w (List.mem_cons_self _ _)
    cases rest with
    | nil =>
      show splitWs w = [w]
      rw [splitWs, splitAux_word w hw.2 hw.1]
      have hfilter : (!List.isEmpty w) = true := by
        cases w with
        | nil => exact absurd rfl hw.1
        | cons a as => rfl
      rw [List.filter_cons, if_pos hfilter]
      rfl
    | cons w' rest' =>
      have hjoin : joinWords (w :: w' :: rest') = w ++ ' ' :: joinWords (w' :: rest') := rfl
      rw [hjoin, splitWs, splitAux_run_space w _ hw.2]
      have hfilter : (!List.isEmpty w) = true := by
        cases w with
        | nil => exact absurd rfl hw.1
        | cons a as => rfl
      rw [List.filter_cons, if_pos hfilter]
      have := ih (fun u hu => h u (List.mem_cons_of_mem _ hu))
      rw [splitWs] at this
      rw [this]

/-- A space-join headed by a non-empty word is non-empty. -/
theorem joinWords_ne_nil (w : List Char) (rest : List (List Char))
    (hw : w ≠ []) : joinWords (w :: rest) ≠ [] := by
  cases rest with
  | nil => exact hw
  | cons w' rest' =>
    show w ++ ' ' :: joinWords (w' :: rest') ≠ []
    simp

/-- The head of a space-join is the head of its first word. -/
theorem joinWords_head (w : List Char) (rest : List (List Char))
    (hw : w ≠ []) : (joinWords (w :: rest)).head? = w.head? := by
  cases rest with
  | nil => rfl
  | cons w' rest' =>
    show (w ++ ' ' :: joinWords (w' :: rest')).head? = w.head?
    exact List.head?_append_of_ne_nil _ hw

/-- The last character of a space-join of non-empty whitespace-free
words is non-whitespace. -/
theorem joinWords_getLast_not_space :
    ∀ ws : List (List Char),
      (∀ w ∈ ws, w ≠ [] ∧ ∀ c ∈ w, pyIsSpace c = false) →
      ∀ c, (joinWords ws).getLast? = some c → pyIsSpace c = false := by
  intro ws
  induction ws with
  | nil => intro _ c hc; exact absurd hc (by simp [joinWords, joinWith])
  | cons w rest ih =>
    intro h c hc
    have hw := h w (List.mem_cons_self _ _)
    cases rest with
    | nil =>
      exact hw.2 c (List.mem_of_mem_getLast? hc)
    | cons w' rest' =>
      have hj : joinWords (w :: w' :: rest') = w ++ ' ' :: joinWords (w' :: rest') := rfl
      rw [hj, List.getLast?_append_of_ne_nil _ (by simp)] at hc
      have hrest := ih (fun u hu => h u (List.mem_cons_of_mem _ hu))
      have hne : joinWords (w' :: rest') ≠ [] :=
        joinWords_ne_nil w' rest' (h w' (by simp)).1
      cases hjw : joinWords (w' :: rest') with
      | nil => exact absurd hjw hne
      | cons j js =>
        rw [hjw, List.getLast?_cons_cons] at hc
        exact hrest c (by rw [hjw]; exact hc)

/-- A space-join of non-empty whitespace-free words is fixed by
`strip()`. -/
theorem pyStrip_joinWords
    (ws : List (List Char))
    (h : ∀ w ∈ ws, w ≠ [] ∧ ∀ c ∈ w, pyIsSpace c = false) :
    pyStrip (joinWords ws) = joinWords ws := by
  cases ws with
  | nil => rfl
  | cons w rest =>
    have hw := h w (List.mem_cons_self _ _)
    have hlstrip : pyLstrip (joinWords (w :: rest)) = joinWords (w :: rest) := by
      cases hjw : joinWords (w :: rest) with
      | nil => rfl
      | cons o os =>
        have ho : o ∈ w.head? := by
          have := joinWords_head w rest hw.1
          rw [hjw] at this
          simp [← this]
        have hons : pyIsSpace o = false :=
          hw.2 o (List.mem_of_mem_head? ho)
        rw [pyLstrip, List.dropWhile_cons, if_neg (by simp [hons])]
    have hrstrip : pyRstrip (joinWords (w :: rest)) = joinWords (w :: rest) := by
      cases hrev : (joinWords (w :: rest)).reverse with
      | nil =>
        rw [List.reverse_eq_nil_iff] at hrev
        rw [hrev]
        rfl
      | cons r rs =>
        have hlast : (joinWords (w :: rest)).getLast? = some r := by
          rw [← List.head?_reverse, hrev]
          rfl
        have hrns : pyIsSpace r = false :=
          joinWords_getLast_not_space (w :: rest) h r hlast
        rw [pyRstrip, hrev, List.dropWhile_cons, if_neg (by simp [hrns]), ← hrev,
          List.reverse_reverse]
    rw [pyStrip, hlstrip, hrstrip]

/-- No two adjacent characters are both whitespace. -/
def noDoubleSpace : List Char → Bool
  | [] => true
  | [_] => true
  | a :: b :: t => !(pyIsSpace a && pyIsSpace b) && noDoubleSpace (b :: t)

/-- Prepending a whitespace-free run preserves `noDoubleSpace`. -/
theorem noDoubleSpace_append (w : List Char) :
    ∀ l : List Char, (∀ c ∈ w, pyIsSpace c = false) →
      noDoubleSpace l = true → noDoubleSpace (w ++ l) = true := by
  induction w with
  | nil => intro l _ hl; simpa using hl
  | cons c cs ih =>
    intro l hw hl
    have hc : pyIsSpace c = false := hw c (List.mem_cons_self _ _)
    have hrest := ih l (fun d hd => hw d (List.mem_cons_of_mem _ hd)) hl
    rw [List.cons_append]
    cases hcl : cs ++ l with
    | nil => rfl
    | cons d t =>
      rw [hcl] at hrest
      show (!(pyIsSpace c && pyIsSpace d) && noDoubleSpace (d :: t)) = true
      simp [hc, hrest]

/-- The space-join of non-empty whitespace-free words never contains
two adjacent whitespace characters. -/
theorem noDoubleSpace_joinWords :
    ∀ ws : List (List Char),
      (∀ w ∈ ws, w ≠ [] ∧ ∀ c ∈ w, pyIsSpace c = false) →
      noDoubleSpace (joinWords ws) = true := by
  intro ws
  induction ws with
  | nil => intro _; rfl
  | cons w rest ih =>
    intro h
    have hw := h w (List.mem_cons_self _ _)
    cases rest with
    | nil =>
      have := noDoubleSpace_append w [] hw.2 rfl
      simpa using this
    | cons w' rest' =>
      have hj : joinWords (w :: w' :: rest') = w ++ ' ' :: joinWords (w' :: rest') := rfl
      rw [hj]
      apply noDoubleSpace_append w _ hw.2
      have hrest := ih (fun u hu => h u (List.mem_cons_of_mem _ hu))
      have hw' := h w' (by simp)
      cases hjw : joinWords (w' :: rest') with
      | nil => rfl
      | cons j js =>
        have hjns : pyIsSpace j = false := by
          have hhead := joinWords_head w' rest' hw'.1
          rw [hjw] at hhead
          exact hw'.2 j (List.mem_of_mem_head? (by simp [← hhead]))
        rw [hjw] at hrest
        show (!(pyIsSpace ' ' && pyIsSpace j) && noDoubleSpace (j :: js)) = true
        simp [hjns, hrest]

/-- C9: `normalize_reply` is idempotent, and its output never has
leading or trailing whitespace nor two adjacent whitespace
characters. -/
theorem normalizeReply_spec (t : List Char) :
    normalizeReply (normalizeReply t) = normalizeReply t ∧
    ((normalizeReply t).head?.all (fun c => !pyIsSpace c)) = true ∧
    ((normalizeReply t).getLast?.all (fun c => !pyIsSpace c)) = true ∧
    noDoubleSpace (normalizeReply t) = true := by
  have hwords := splitWs_words (pyStrip t)
  refine ⟨?_, ?_, ?_, ?_⟩
  · have h1 : normalizeReply (normalizeReply t)
        = joinWords (splitWs (pyStrip (joinWords (splitWs (pyStrip t))))) := rfl
    rw [h1, pyStrip_joinWords _ hwords, splitWs_joinWords _ hwords]
    rfl
  · cases hws : splitWs (pyStrip t) with
    | nil =>
      have hnil : normalizeReply t = [] := by
        rw [normalizeReply, joinWords, hws]
        rfl
      rw [hnil]
      rfl
    | cons w rest =>
      have hw := hwords w (hws ▸ List.mem_cons_self w rest)
      have hh : (normalizeReply t).head? = w.head? := by
        rw [normalizeReply, joinWords, hws]
        exact joinWords_head w rest hw.1
      cases w with
      | nil => exact absurd rfl hw.1
      | cons c csw =>
        rw [hh]
        have hc : pyIsSpace c = false := hw.2 c (List.mem_cons_self _ _)
        simp [hc]
  · cases hl : (normalizeReply t).getLast? with
    | none => rfl
    | some c =>
      have hc : pyIsSpace c = false :=
        joinWords_getLast_not_space _ hwords c hl
      show (!pyIsSpace c) = true
      rw [hc]
      rfl
  · exact noDoubleSpace_joinWords _ hwords

/-- Rejected admission path of `_handle_message`: history fetch, inbound
persist and `message_in` log happen, then the handler stops right after
the admission evaluation. -/
theorem handle_reject_path (s : Settings) (selfNums : List Int) (selfIds : List (List Char))
    (attempts : List (Except BackendError (List Char))) (now lat : Int)
    (db : List MessageRecord) (msg : InboundMessage)
    (hself : isFromSelf selfNums selfIds msg = false)
    (hadm : shouldRespond s msg = false) :
    handleMessage s selfNums selfIds attempts now lat db msg =
      (db ++ [inboundRecordOf s msg],
       [TraceEvent.fetchHistory msg.senderId (s.memoryTurns * 2).toNat,
        TraceEvent.persist (inboundRecordOf s msg), TraceEvent.logMessageIn,
        TraceEvent.admission false]) := by
  unfold handleMessage
  rw [hself, if_neg (by decide)]
  simp only [hadm]
  rfl

/-- Inference-failure path of `_handle_message`: the admitted event
reaches the inference call, which raises; the top-level handler logs
one `message_handler_error` and abandons the event with only the
inbound record persisted. -/
theorem handle_error_path (s : Settings) (selfNums : List Int) (selfIds : List (List Char))
    (attempts : List (Except BackendError (List Char))) (now lat : Int)
    (db : List MessageRecord) (msg : InboundMessage) (err : Option BackendError)
    (hself : isFromSelf selfNums selfIds msg = false)
    (hadm : shouldRespond s msg = true)
    (hstrip : (stripTriggerPrefix msg.text s.triggerPrefix).isEmpty = false)
    (hgen : generate attempts = Except.error err) :
    handleMessage s selfNums selfIds attempts now lat db msg =
      (db ++ [inboundRecordOf s msg],
       [TraceEvent.fetchHistory msg.senderId (s.memoryTurns * 2).toNat,
        TraceEvent.persist (inboundRecordOf s msg), TraceEvent.logMessageIn,
        TraceEvent.admission true,
        TraceEvent.llmCall (buildPrompt
          { msg with text := stripTriggerPrefix msg.text s.triggerPrefix }
          (getRecent db msg.senderId (s.memoryTurns * 2).toNat) s.maxReplyChars),
        TraceEvent.handlerError]) := by
  unfold handleMessage
  rw [hself, if_neg (by decide)]
  simp only [hadm, hstrip, hgen]
  rfl

/-- Full success path of `_handle_message`: inference succeeds and the
processed reply is non-empty, so the chunks are sent and the outbound
record is appended after the inbound one. -/
theorem handle_ok_path (s : Settings) (selfNums : List Int) (selfIds : List (List Char))
    (attempts : List (Except BackendError (List Char))) (now lat : Int)
    (db : List MessageRecord) (msg : InboundMessage) (resp : List Char)
    (hself : isFromSelf selfNums selfIds msg = false)
    (hadm : shouldRespond s msg = true)
    (hstrip : (stripTriggerPrefix msg.text s.triggerPrefix).isEmpty = false)
    (hgen : generate attempts = Except.ok resp)
    (hreply : (enforceMaxLength (normalizeReply resp) s.maxReplyChars).isEmpty = false) :
    handleMessage s selfNums selfIds attempts now lat db msg =
      ((db ++ [inboundRecordOf s msg]) ++
         [outboundRecordOf msg (enforceMaxLength (normalizeReply resp) s.maxReplyChars) now lat],
       (([TraceEvent.fetchHistory msg.senderId (s.memoryTurns * 2).toNat,
          TraceEvent.persist (inboundRecordOf s msg), TraceEvent.logMessageIn,
          TraceEvent.admission true,
          TraceEvent.llmCall (buildPrompt
            { msg with text := stripTriggerPrefix msg.text s.triggerPrefix }
            (getRecent db msg.senderId (s.memoryTurns * 2).toNat) s.maxReplyChars),
          TraceEvent.llmResponseLogged] ++
         sendEventsOf (chunkText (enforceMaxLength (normalizeReply resp) s.maxReplyChars)
             s.maxReplyChars)
           (destOf msg).1 (destOf msg).2) ++
        [TraceEvent.persist (outboundRecordOf msg
          (enforceMaxLength (normalizeReply resp) s.maxReplyChars) now lat)])) := by
  unfold handleMessage
  rw [hself, if_neg (by decide)]
  simp only [hadm, hstrip, hgen, hreply]
  rfl

/-- Empty-after-stripping path of `_handle_message`: the admitted event
has nothing left once the trigger is stripped; the handler logs
`empty_trigger` and stops. -/
theorem handle_empty_trigger_path (s : Settings) (selfNums : List Int)
    (selfIds : List (List Char))
    (attempts : List (Except BackendError (List Char))) (now lat : Int)
    (db : List MessageRecord) (msg : InboundMessage)
    (hself : isFromSelf selfNums selfIds msg = false)
    (hadm : shouldRespond s msg = true)
    (hstrip : (stripTriggerPrefix msg.text s.triggerPrefix).isEmpty = true) :
    handleMessage s selfNums selfIds attempts now lat db msg =
      (db ++ [inboundRecordOf s msg],
       [TraceEvent.fetchHistory msg.senderId (s.memoryTurns * 2).toNat,
        TraceEvent.persist (inboundRecordOf s msg), TraceEvent.logMessageIn,
        TraceEvent.admission true, TraceEvent.emptyTrigger]) := by
  unfold handleMessage
  rw [hself, if_neg (by decide)]
  simp only [hadm, hstrip]
  rfl

/-- Empty-reply path of `_handle_message`: inference succeeded but the
normalized, truncated reply is empty; the handler logs `empty_reply`
and stops. -/
theorem handle_empty_reply_path (s : Settings) (selfNums : List Int)
    (selfIds : List (List Char))
    (attempts : List (Except BackendError (List Char))) (now lat : Int)
    (db : List MessageRecord) (msg : InboundMessage) (resp : List Char)
    (hself : isFromSelf selfNums selfIds msg = false)
    (hadm : shouldRespond s msg = true)
    (hstrip : (stripTriggerPrefix msg.text s.triggerPrefix).isEmpty = false)
    (hgen : generate attempts = Except.ok resp)
    (hreply : (enforceMaxLength (normalizeReply resp) s.maxReplyChars).isEmpty = true) :
    handleMessage s selfNums selfIds attempts now lat db msg =
      (db ++ [inboundRecordOf s msg],
       [TraceEvent.fetchHistory msg.senderId (s.memoryTurns * 2).toNat,
        TraceEvent.persist (inboundRecordOf s msg), TraceEvent.logMessageIn,
        TraceEvent.admission true,
        TraceEvent.llmCall (buildPrompt
          { msg with text := stripTriggerPrefix msg.text s.triggerPrefix }
          (getRecent db msg.senderId (s.memoryTurns * 2).toNat) s.maxReplyChars),
        TraceEvent.emptyReply]) := by
  unfold handleMessage
  rw [hself, if_neg (by decide)]
  simp only [hadm, hstrip, hgen, hreply]
  rfl

/-- On every non-self event, whatever the admission outcome and the
backend behaviour, the trace starts with the history fetch, then the
inbound persist, then the `message_in` log, then the admission
evaluation. -/
theorem handle_trace_shape (s : Settings) (selfNums : List Int) (selfIds : List (List Char))
    (attempts : List (Except BackendError (List Char))) (now lat : Int)
    (db : List MessageRecord) (msg : InboundMessage)
    (hself : isFromSelf selfNums selfIds msg = false) :
    ∃ rest, (handleMessage s selfNums selfIds attempts now lat db msg).2 =
      TraceEvent.fetchHistory msg.senderId (s.memoryTurns * 2).toNat ::
      TraceEvent.persist (inboundRecordOf s msg) ::
      TraceEvent.logMessageIn ::
      TraceEvent.admission (shouldRespond s msg) :: rest := by
  cases hadm : shouldRespond s msg
  · rw [handle_reject_path s selfNums selfIds attempts now lat db msg hself hadm]
    exact ⟨_, rfl⟩
  · cases hstrip : (stripTriggerPrefix msg.text s.triggerPrefix).isEmpty
    · cases hgen : generate attempts with
      | error err =>
        rw [handle_error_path s selfNums selfIds attempts now lat db msg err
          hself hadm hstrip hgen]
        exact ⟨_, rfl⟩
      | ok resp =>
        cases hreply : (enforceMaxLength (normalizeReply resp) s.maxReplyChars).isEmpty
        · rw [handle_ok_path s selfNums selfIds attempts now lat db msg resp
            hself hadm hstrip hgen hreply]
          exact ⟨_, rfl⟩
        · rw [handle_empty_reply_path s selfNums selfIds attempts now lat db msg resp
            hself hadm hstrip hgen hreply]
          exact ⟨_, rfl⟩
    · rw [handle_empty_trigger_path s selfNums selfIds attempts now lat db msg
        hself hadm hstrip]
      exact ⟨_, rfl⟩

/-- A concrete admitted DM event used by the concrete runs below. -/
def msgDm : InboundMessage :=
  { text := "hi".toList, senderId := "!ab".toList, senderShortName := none,
    senderLongName := none, channel := none, isDm := true, rxTime := 3,
    fromNum := some 7, toNum := some 9, toId := none, messageId := none }

/-- Concrete permissive settings: no trigger, no filters,
`max_reply_chars = 100`. -/
def setOpen : Settings :=
  { triggerPrefix := [], respondToDmsOnly := false, allowedChannels := [],
    allowedSenders := [], maxReplyChars := 100, memoryTurns := 6 }

/-- C3 counterexample: in a concrete run of the handler the history
fetch is the first observable step (index 0) and the persistence of
the inbound record the second (index 1): the history fetch precedes —
not follows — the persistence of the current inbound record. -/
theorem fetch_first_concrete_run :
    ((handleMessage setOpen [] [] [Except.ok "ok".toList] 50 4 [] msgDm).2.findIdx
      isFetchEvent = 0) ∧
    ((handleMessage setOpen [] [] [Except.ok "ok".toList] 50 4 [] msgDm).2.findIdx
      isPersistEvent = 1) ∧
    ¬ ((handleMessage setOpen [] [] [Except.ok "ok".toList] 50 4 [] msgDm).2.findIdx
      isPersistEvent <
      (handleMessage setOpen [] [] [Except.ok "ok".toList] 50 4 [] msgDm).2.findIdx
      isFetchEvent) := by
  decide

/-- C3 (amended): per inbound non-self event the steps are strictly
ordered, but the history fetch comes first (index 0), before the
inbound record is persisted (index 1) — so the fetched history excludes
the current message — and both precede the admission evaluation
(index 3). -/
theorem fetch_precedes_persist (s : Settings) (selfNums : List Int)
    (selfIds : List (List Char))
    (attempts : List (Except BackendError (List Char))) (now lat : Int)
    (db : List MessageRecord) (msg : InboundMessage)
    (hself : isFromSelf selfNums selfIds msg = false) :
    ((handleMessage s selfNums selfIds attempts now lat db msg).2.findIdx
      isFetchEvent = 0) ∧
    ((handleMessage s selfNums selfIds attempts now lat db msg).2.findIdx
      isPersistEvent = 1) ∧
    ((handleMessage s selfNums selfIds attempts now lat db msg).2.findIdx
      isAdmissionEvent = 3) := by
  obtain ⟨rest, hr⟩ := handle_trace_shape s selfNums selfIds attempts now lat db msg hself
  rw [hr]
  refine ⟨rfl, ?_, ?_⟩ <;>
    simp [List.findIdx_cons, isPersistEvent, isAdmissionEvent, isFetchEvent]

/-- C3 witness: the amended ordering evaluated on a concrete run. -/
theorem fetch_precedes_persist_witness :
    isFromSelf [] [] msgDm = false ∧
    ((handleMessage setOpen [] [] [Except.ok "ok".toList] 50 4 [] msgDm).2.findIdx
      isFetchEvent = 0) ∧
    ((handleMessage setOpen [] [] [Except.ok "ok".toList] 50 4 [] msgDm).2.findIdx
      isPersistEvent = 1) ∧
    ((handleMessage setOpen [] [] [Except.ok "ok".toList] 50 4 [] msgDm).2.findIdx
      isAdmissionEvent = 3) :=
  ⟨by decide,
   fetch_precedes_persist setOpen [] [] [Except.ok "ok".toList] 50 4 [] msgDm (by decide)⟩

/-- Concrete DM-only settings. -/
def setDmOnly : Settings := { setOpen with respondToDmsOnly := true }

/-- A concrete broadcast (non-DM) event. -/
def msgBc : InboundMessage := { msgDm with isDm := false, toNum := some 0 }

/-- C4: on every non-self event the inbound record — whose stored text
is the event text with any configured trigger stripped — is appended
before the admission decision is evaluated; when admission rejects,
the handler stops with only the inbound record persisted, no inference
call and no send. -/
theorem persist_happens_before_admission (s : Settings) (selfNums : List Int)
    (selfIds : List (List Char))
    (attempts : List (Except BackendError (List Char))) (now lat : Int)
    (db : List MessageRecord) (msg : InboundMessage)
    (hself : isFromSelf selfNums selfIds msg = false) :
    (inboundRecordOf s msg).text = stripTriggerPrefix msg.text s.triggerPrefix ∧
    (∃ rest, (handleMessage s selfNums selfIds attempts now lat db msg).2 =
      TraceEvent.fetchHistory msg.senderId (s.memoryTurns * 2).toNat ::
      TraceEvent.persist (inboundRecordOf s msg) ::
      TraceEvent.logMessageIn ::
      TraceEvent.admission (shouldRespond s msg) :: rest) ∧
    (shouldRespond s msg = false →
      handleMessage s selfNums selfIds attempts now lat db msg =
        (db ++ [inboundRecordOf s msg],
         [TraceEvent.fetchHistory msg.senderId (s.memoryTurns * 2).toNat,
          TraceEvent.persist (inboundRecordOf s msg), TraceEvent.logMessageIn,
          TraceEvent.admission false]) ∧
      (handleMessage s selfNums selfIds attempts now lat db msg).2.filter
        isLlmCallEvent = [] ∧
      (handleMessage s selfNums selfIds attempts now lat db msg).2.filter
        isSendEvent = []) := by
  refine ⟨rfl, handle_trace_shape s selfNums selfIds attempts now lat db msg hself, ?_⟩
  intro hadm
  have hp := handle_reject_path s selfNums selfIds attempts now lat db msg hself hadm
  refine ⟨hp, ?_, ?_⟩ <;> rw [hp] <;> rfl

/-- C4 witness: DM-only mode rejecting a broadcast event — only the
inbound record is persisted and no inference call occurs. -/
theorem persist_happens_before_admission_witness :
    isFromSelf [] [] msgBc = false ∧
    shouldRespond setDmOnly msgBc = false ∧
    handleMessage setDmOnly [] [] [Except.ok "ok".toList] 50 4 [] msgBc =
      ([inboundRecordOf setDmOnly msgBc],
       [TraceEvent.fetchHistory msgBc.senderId 12,
        TraceEvent.persist (inboundRecordOf setDmOnly msgBc),
        TraceEvent.logMessageIn, TraceEvent.admission false]) :=
  ⟨by decide, by decide,
   ((persist_happens_before_admission setDmOnly [] [] [Except.ok "ok".toList] 50 4 []
      msgBc (by decide)).2.2 (by decide)).1⟩

/-- Exhausted retry loop: when no attempt succeeds, the loop body
returns the error wrapping the most recent attempt's exception (or the
incoming `last_error` when there were no attempts). -/
theorem generateGo_all_fail :
    ∀ (attempts : List (Except BackendError (List Char))) (acc : Option BackendError),
      (∀ a ∈ attempts, ∀ r, a ≠ Except.ok r) →
      generateGo attempts acc = Except.error
        (match attempts.getLast? with
         | some (Except.error e) => some e
         | _ => acc) := by
  intro attempts
  induction attempts with
  | nil => intro acc _; rfl
  | cons a rest ih =>
    intro acc hfail
    cases a with
    | ok r => exact absurd rfl (hfail _ (List.mem_cons_self _ _) r)
    | error e =>
      show generateGo rest (some e) = _
      rw [ih (some e) (fun x hx => hfail x (List.mem_cons_of_mem _ hx))]
      cases rest with
      | nil => rfl
      | cons b t =>
        rw [List.getLast?_cons_cons]
        cases hg : (b :: t).getLast? with
        | none => simp at hg
        | some x =>
          cases x with
          | error e2 => rfl
          | ok r =>
            exact absurd rfl
              (hfail _ (List.mem_cons_of_mem _ (List.mem_of_mem_getLast? hg)) r)

/-- `generate` raises carrying the last underlying error once every
attempt has failed. -/
theorem generate_last_error (attempts : List (Except BackendError (List Char)))
    (e : BackendError)
    (hfail : ∀ a ∈ attempts, ∀ r, a ≠ Except.ok r)
    (hlast : attempts.getLast? = some (Except.error e)) :
    generate attempts = Except.error (some e) := by
  rw [generate, generateGo_all_fail attempts none hfail, hlast]

/-- C6: when every inference attempt fails, `generate` raises a failure
wrapping the last underlying error instead of returning a result; for
that event the handler persists no outbound record, attempts no send,
and logs exactly one `message_handler_error`, while the inbound record
remains persisted. -/
theorem inference_failure_spec (s : Settings) (selfNums : List Int)
    (selfIds : List (List Char))
    (attempts : List (Except BackendError (List Char))) (now lat : Int)
    (db : List MessageRecord) (msg : InboundMessage) (e : BackendError)
    (hself : isFromSelf selfNums selfIds msg = false)
    (hadm : shouldRespond s msg = true)
    (hstrip : (stripTriggerPrefix msg.text s.triggerPrefix).isEmpty = false)
    (hfail : ∀ a ∈ attempts, ∀ r, a ≠ Except.ok r)
    (hlast : attempts.getLast? = some (Except.error e)) :
    generate attempts = Except.error (some e) ∧
    (handleMessage s selfNums selfIds attempts now lat db msg).1 =
      db ++ [inboundRecordOf s msg] ∧
    (handleMessage s selfNums selfIds attempts now lat db msg).2.filter
      isSendEvent = [] ∧
    ((handleMessage s selfNums selfIds attempts now lat db msg).2.filter
      isHandlerErrorEvent).length = 1 := by
  have hgen := generate_last_error attempts e hfail hlast
  have hp := handle_error_path s selfNums selfIds attempts now lat db msg (some e)
    hself hadm hstrip hgen
  exact ⟨hgen, by rw [hp], by rw [hp]; rfl, by rw [hp]; rfl⟩

/-- Three failed attempts (`max_retries = 3`), e.g. an HTTP 500 raised
as `HTTPStatusError` on each try. -/
def attempts500 : List (Except BackendError (List Char)) :=
  [Except.error "500 try 1".toList, Except.error "500 try 2".toList,
   Except.error "500 try 3".toList]

/-- C6 witness: three failing attempts on a concrete admitted event. -/
theorem inference_failure_spec_witness :
    generate attempts500 = Except.error (some "500 try 3".toList) ∧
    (handleMessage setOpen [] [] attempts500 50 4 [] msgDm).1 =
      [] ++ [inboundRecordOf setOpen msgDm] ∧
    (handleMessage setOpen [] [] attempts500 50 4 [] msgDm).2.filter
      isSendEvent = [] ∧
    ((handleMessage setOpen [] [] attempts500 50 4 [] msgDm).2.filter
      isHandlerErrorEvent).length = 1 :=
  inference_failure_spec setOpen [] [] attempts500 50 4 [] msgDm "500 try 3".toList
    (by decide) (by decide) (by decide)
    (by
      intro a ha r
      simp only [attempts500, List.mem_cons, List.not_mem_nil, or_false] at ha
      rcases ha with rfl | rfl | rfl <;> simp)
    rfl

/-- `rstrip()` never lengthens a string. -/
theorem pyRstrip_length_le (l : List Char) : (pyRstrip l).length ≤ l.length := by
  rw [pyRstrip, List.length_reverse]
  have : ∀ m : List Char, (m.dropWhile pyIsSpace).length ≤ m.length := by
    intro m
    induction m with
    | nil => simp
    | cons a t ih =>
      rw [List.dropWhile_cons]
      by_cases h : pyIsSpace a = true
      · rw [if_pos h]; simp; omega
      · rw [if_neg h]
  calc (List.dropWhile pyIsSpace l.reverse).length ≤ l.reverse.length := this l.reverse
    _ = l.length := List.length_reverse l

/-- `rstrip()` keeps a string whose first character is not whitespace
non-empty. -/
theorem pyRstrip_ne_nil_of_head (l : List Char) (c : Char)
    (h : l.head? = some c) (hc : pyIsSpace c = false) : pyRstrip l ≠ [] := by
  intro hnil
  rw [pyRstrip, List.reverse_eq_nil_iff, List.dropWhile_eq_nil_iff] at hnil
  have hcmem : c ∈ l.reverse := List.mem_reverse.mpr (List.mem_of_mem_head? (by simp [h]))
  rw [hnil c hcmem] at hc
  exact Bool.noConfusion hc

/-- Taking a positive-length slice preserves the head. -/
theorem head?_take (l : List Char) (n : Nat) (hn : 0 < n) :
    (l.take n).head? = l.head? := by
  cases l with
  | nil => simp
  | cons a t =>
    cases n with
    | zero => omega
    | succ m => rfl

/-- The head of a normalized reply is never whitespace. -/
theorem normalizeReply_head_not_space (t : List Char) (c : Char)
    (h : (normalizeReply t).head? = some c) : pyIsSpace c = false := by
  have hwords := splitWs_words (pyStrip t)
  cases hws : splitWs (pyStrip t) with
  | nil =>
    have hnil : normalizeReply t = [] := by
      rw [normalizeReply, joinWords, hws]
      rfl
    rw [hnil] at h
    exact absurd h (by simp)
  | cons w rest =>
    have hw := hwords w (hws ▸ List.mem_cons_self w rest)
    have hh : (normalizeReply t).head? = w.head? := by
      rw [normalizeReply, joinWords, hws]
      exact joinWords_head w rest hw.1
    rw [hh] at h
    exact hw.2 c (List.mem_of_mem_head? (by simp [h]))

/-- A non-empty text no longer than the chunk size forms exactly one
chunk. -/
theorem chunkText_of_short (l : List Char) (n : Int) (hn : 0 < n)
    (hl : l ≠ []) (hlen : (l.length : Int) ≤ n) : chunkText l n = [l] := by
  rw [chunkText, if_neg (by omega)]
  have hL : 0 < l.length := List.length_pos.mpr hl
  have hceil : (l.length + n.toNat - 1) / n.toNat = 1 := by
    have h1 : l.length + n.toNat - 1 = (l.length - 1) + n.toNat := by omega
    rw [h1, Nat.add_div_right _ (by omega), Nat.div_eq_of_lt (by omega)]
  rw [chunksPos, hceil]
  have hrange : List.range 1 = [0] := rfl
  rw [hrange]
  simp only [List.map_cons, List.map_nil, Nat.zero_mul, List.drop_zero]
  rw [List.take_of_length_le (by omega)]

set_option maxRecDepth 100000 in
/-- C1 counterexample: concrete admitted DM event with a model reply of
250 `'a'`s and `max_reply_chars = 100`.  The reply is truncated to 100
characters and then chunked with chunk size 100, so exactly ONE
100-character segment is sent — not two 50-character-or-fewer
segments. -/
theorem reply_chunked_once_concrete :
    (normalizeReply (List.replicate 250 'a')).length = 250 ∧
    ((handleMessage setOpen [] [] [Except.ok (List.replicate 250 'a')] 50 4 [] msgDm).2.filter
      isSendEvent) =
      [TraceEvent.send (List.replicate 100 'a') (some (Dest.str "!ab".toList)) none 1 1] ∧
    ((handleMessage setOpen [] [] [Except.ok (List.replicate 250 'a')] 50 4 [] msgDm).2.filter
      isSendEvent).length ≠ 2 := by
  decide

/-- C1 (amended): for an admitted non-self event whose model reply
normalizes to 250 characters, with `max_reply_chars = 100`, the reply
is truncated to at most 100 characters and then chunked with chunk
size `max_reply_chars` applied to the already-truncated reply, which
yields a single segment sent once with chunk index 1 of 1 to the
destination derived from the original event. -/
theorem truncate_then_single_chunk (s : Settings) (selfNums : List Int)
    (selfIds : List (List Char))
    (attempts : List (Except BackendError (List Char))) (now lat : Int)
    (db : List MessageRecord) (msg : InboundMessage) (resp : List Char)
    (hself : isFromSelf selfNums selfIds msg = false)
    (hadm : shouldRespond s msg = true)
    (hstrip : (stripTriggerPrefix msg.text s.triggerPrefix).isEmpty = false)
    (hgen : generate attempts = Except.ok resp)
    (hmax : s.maxReplyChars = 100)
    (hlen : (normalizeReply resp).length = 250) :
    (enforceMaxLength (normalizeReply resp) s.maxReplyChars).length ≤ 100 ∧
    chunkText (enforceMaxLength (normalizeReply resp) s.maxReplyChars) s.maxReplyChars =
      [enforceMaxLength (normalizeReply resp) s.maxReplyChars] ∧
    (handleMessage s selfNums selfIds attempts now lat db msg).2.filter isSendEvent =
      [TraceEvent.send (enforceMaxLength (normalizeReply resp) s.maxReplyChars)
        (destOf msg).1 (destOf msg).2 1 1] := by
  have hnr_ne : normalizeReply resp ≠ [] := by
    intro h
    rw [h] at hlen
    simp at hlen
  obtain ⟨c, hc⟩ : ∃ c, (normalizeReply resp).head? = some c := by
    cases hn : normalizeReply resp with
    | nil => exact absurd hn hnr_ne
    | cons a t => exact ⟨a, rfl⟩
  have hcns : pyIsSpace c = false := normalizeReply_head_not_space resp c hc
  have hlen_int : ((normalizeReply resp).length : Int) = 250 := by
    exact_mod_cast hlen
  have henf : enforceMaxLength (normalizeReply resp) s.maxReplyChars =
      pyRstrip ((normalizeReply resp).take 100) := by
    rw [hmax, enforceMaxLength, if_neg (by omega)]
    rfl
  have hhead_take : ((normalizeReply resp).take 100).head? = some c := by
    rw [head?_take _ 100 (by omega)]
    exact hc
  have hne_reply : pyRstrip ((normalizeReply resp).take 100) ≠ [] :=
    pyRstrip_ne_nil_of_head _ c hhead_take hcns
  have hlen_reply : (pyRstrip ((normalizeReply resp).take 100)).length ≤ 100 := by
    have h1 := pyRstrip_length_le ((normalizeReply resp).take 100)
    rw [List.length_take] at h1
    omega
  have hchunk : chunkText (enforceMaxLength (normalizeReply resp) s.maxReplyChars)
      s.maxReplyChars = [enforceMaxLength (normalizeReply resp) s.maxReplyChars] := by
    rw [henf, hmax]
    exact chunkText_of_short _ 100 (by norm_num) hne_reply (by omega)
  refine ⟨by rw [henf]; exact hlen_reply, hchunk, ?_⟩
  have hreply_ne : (enforceMaxLength (normalizeReply resp) s.maxReplyChars).isEmpty
      = false := by
    rw [henf]
    cases hpr : pyRstrip ((normalizeReply resp).take 100) with
    | nil => exact absurd hpr hne_reply
    | cons a t => rfl
  have hp := handle_ok_path s selfNums selfIds attempts now lat db msg resp
    hself hadm hstrip hgen hreply_ne
  rw [hp, hchunk]
  rfl

set_option maxRecDepth 100000 in
/-- C1 witness: the amended statement evaluated on the concrete
250-character reply. -/
theorem truncate_then_single_chunk_witness :
    (enforceMaxLength (normalizeReply (List.replicate 250 'a'))
      setOpen.maxReplyChars).length ≤ 100 ∧
    chunkText (enforceMaxLength (normalizeReply (List.replicate 250 'a'))
        setOpen.maxReplyChars) setOpen.maxReplyChars =
      [enforceMaxLength (normalizeReply (List.replicate 250 'a')) setOpen.maxReplyChars] ∧
    (handleMessage setOpen [] [] [Except.ok (List.replicate 250 'a')] 50 4 []
        msgDm).2.filter isSendEvent =
      [TraceEvent.send
        (enforceMaxLength (normalizeReply (List.replicate 250 'a')) setOpen.maxReplyChars)
        (destOf msgDm).1 (destOf msgDm).2 1 1] :=
  truncate_then_single_chunk setOpen [] [] [Except.ok (List.replicate 250 'a')] 50 4 []
    msgDm (List.replicate 250 'a')
    (by decide) (by decide) (by decide) rfl rfl (by decide)
